import Mathlib

/-!
Verification development for the fastCRUD join/query/shaping core and its
endpoint layer.  The data model uses association-list rows over a small
value type; dynamic Python values are embedded as `Value`, rows returned by
the storage collaborator as `Row`.
-/

/-- A dynamic column value: SQL NULL, an integer, or a string. -/
inductive Value where
  | vnull : Value
  | vint : Int → Value
  | vstr : String → Value
deriving DecidableEq

/-- A flat result row: mapping from column label to value. -/
def Row : Type := List (String × Value)

instance : DecidableEq Row := by unfold Row; infer_instance

/-- Look a column up in a row; absent columns read as SQL NULL. -/
def lookupV (r : Row) (k : String) : Value :=
  (List.lookup k r).getD Value.vnull

/-- Three-way comparison from a linear order. -/
def cmp3 {α : Type} [LinearOrder α] (x y : α) : Ordering :=
  if x < y then Ordering.lt else if x = y then Ordering.eq else Ordering.gt

/-- Three-way comparison of characters by code point. -/
def charCmp (a b : Char) : Ordering := cmp3 a.toNat b.toNat

/-- Lexicographic three-way comparison of character lists. -/
def listCharCmp : List Char → List Char → Ordering
  | [], [] => .eq
  | [], _ :: _ => .lt
  | _ :: _, [] => .gt
  | a :: as, b :: bs =>
    match charCmp a b with
    | .eq => listCharCmp as bs
    | o => o

/-- Lexicographic three-way comparison of strings. -/
def strCmp (a b : String) : Ordering := listCharCmp a.data b.data

def Value.cmp : Value → Value → Ordering
  | .vnull, .vnull => .eq
  | .vnull, .vint _ => .lt
  | .vnull, .vstr _ => .lt
  | .vint _, .vnull => .gt
  | .vint m, .vint n => cmp3 m n
  | .vint _, .vstr _ => .lt
  | .vstr _, .vnull => .gt
  | .vstr _, .vint _ => .gt
  | .vstr a, .vstr b => strCmp a b

inductive SortOrder where
  | asc : SortOrder
  | desc : SortOrder
deriving DecidableEq

/-- Compare two rows on a single (column, direction) sort key. -/
def keyCmp (k : String × SortOrder) (r1 r2 : Row) : Ordering :=
  match k.2 with
  | .asc => Value.cmp (lookupV r1 k.1) (lookupV r2 k.1)
  | .desc => (Value.cmp (lookupV r1 k.1) (lookupV r2 k.1)).swap

/-- Lexicographic comparison of two rows over a list of sort keys, each key
applied in the order given. -/
def rowCmp : List (String × SortOrder) → Row → Row → Ordering
  | [], _, _ => .eq
  | k :: ks, r1, r2 =>
    match keyCmp k r1 r2 with
    | .eq => rowCmp ks r1 r2
    | o => o

def rowLe (ks : List (String × SortOrder)) (r1 r2 : Row) : Prop :=
  rowCmp ks r1 r2 ≠ Ordering.gt

instance (ks : List (String × SortOrder)) : DecidableRel (rowLe ks) := by
  unfold rowLe
  infer_instance

/-- Modelled from the spec: the ordering step of the Query Assembler
(`CRUDBase.apply_sorting` is not among the provided sources).  "Apply
ordering: for each (column, order) pair in the parallel sequences, add an
ascending or descending sort key" — realised as a stable sort by the
lexicographic comparator over the key list. -/
def sortRows (ks : List (String × SortOrder)) (rows : List Row) : List Row :=
  List.insertionSort (rowLe ks) rows

/-- Parse a sort-order string; only "asc" and "desc" are accepted. -/
def parseOrder (s : String) : Option SortOrder :=
  if s = "asc" then some SortOrder.asc
  else if s = "desc" then some SortOrder.desc
  else none

/-- Modelled from the spec: `CRUDBase.apply_sorting` (not among the provided
sources; exercised by tests/crud/test_apply_sorting.py).  Validates the
parallel sort sequences — "mismatched sequence lengths fail with ConfigError
before touching the database", unknown order values fail — and otherwise
sorts the row set by the (column, order) pairs in the order given.  The row
set stands for what the storage collaborator would return; every validation
failure is produced without inspecting it. -/
def applySorting (sortColumns : List String) (sortOrders : Option (List String))
    (rows : List Row) : Except String (List Row) :=
  match sortOrders with
  | none => Except.ok (sortRows (sortColumns.map fun c => (c, SortOrder.asc)) rows)
  | some ords =>
    if sortColumns.length ≠ ords.length then
      Except.error "ConfigError: sort_columns and sort_orders must have the same length"
    else
      match ords.mapM parseOrder with
      | none => Except.error "ConfigError: invalid sort order"
      | some os => Except.ok (sortRows (sortColumns.zip os) rows)

structure JoinSpec where
  pfx : String
  cols : List String
  oneToMany : Bool
deriving DecidableEq

/-- The slice of a flat row belonging to one join: its columns with the
output prefix stripped from the keys. -/
def joinGroup (j : JoinSpec) (r : Row) : List (String × Value) :=
  j.cols.map fun c => (c, lookupV r (j.pfx ++ c))

/-- True when every column of a join group is SQL NULL. -/
def allNullB (fs : List (String × Value)) : Bool :=
  fs.all fun p => decide (p.2 = Value.vnull)

/-- The nested key a join contributes its data under: its output prefix
with a trailing underscore stripped. -/
def stripJoinKey (p : String) : String :=
  if p.data.getLast? = some '_' then String.mk p.data.dropLast else p

/-- First-seen deduplication: keep the first occurrence of each element,
preserving order of first appearance. -/
def firstSeenAux (seen : List Value) : List Value → List Value
  | [] => []
  | x :: xs =>
    if x ∈ seen then firstSeenAux seen xs
    else x :: firstSeenAux (x :: seen) xs

/-- First-seen deduplication: keep the first occurrence of each element,
preserving order of first appearance. -/
def firstSeen (l : List Value) : List Value := firstSeenAux [] l

/-- The nested value shaped under a join's key: `nul` for a one-to-one join
whose columns are all NULL, `one` for a matched one-to-one join, `many` for
the accumulated list of a one-to-many join. -/
inductive NestedVal where
  | nul : NestedVal
  | one : List (String × Value) → NestedVal
  | many : List (List (String × Value)) → NestedVal
deriving DecidableEq

/-- One shaped output record: the base-entity primary key it was grouped
by, the base-entity columns, and one nested entry per join. -/
structure ShapedRecord where
  pk : Value
  base : List (String × Value)
  joins : List (String × NestedVal)
deriving DecidableEq

/-- Shape one base-key group of rows into a single record.  The base columns
come from the first row of the group; each one-to-one join nests to `nul`
when all its columns are NULL and to a stripped-key dict otherwise; each
one-to-many join collects one list entry per row of the group whose join
columns are not all NULL, in row-emission order. -/
def shapeGroup (baseCols : List String) (joins : List JoinSpec) (k : Value)
    (g : List Row) : ShapedRecord :=
  let r0 : Row := g.headD ([] : List (String × Value))
  { pk := k
    base := baseCols.map fun c => (c, lookupV r0 c)
    joins := joins.map fun j =>
      (stripJoinKey j.pfx,
        if j.oneToMany then
          NestedVal.many
            (((g.filter fun r => !(allNullB (joinGroup j r))).map (joinGroup j)))
        else
          if allNullB (joinGroup j r0) then NestedVal.nul
          else NestedVal.one (joinGroup j r0)) }

/-- Modelled from the spec: the Row Shaper in nested mode (the shaping code
of `FastCRUD` is not among the provided sources).  "Group rows by
base-entity primary key (order of first appearance preserved)"; each group
becomes exactly one record; one-to-many children accumulate into that
record's nested list, skipping all-NULL join groups. -/
def shapeRows (basePk : String) (baseCols : List String) (joins : List JoinSpec)
    (rows : List Row) : List ShapedRecord :=
  (firstSeen (rows.map fun r => lookupV r basePk)).map fun k =>
    shapeGroup baseCols joins k (rows.filter fun r => decide (lookupV r basePk = k))

/-- Join-level equality filters (`join_filters`): a mapping from column name
to required value on the joined entity's row. -/
def filtHolds (filters : List (String × Value)) (t : Row) : Bool :=
  filters.all fun p => decide (lookupV t p.1 = p.2)

/-- Modelled from the spec: left-join application with join-level filters in
the Query Assembler (the join-building code of `FastCRUD` is not among the
provided sources).  "Filters on left joins are applied as join-condition
augmentation, not post-filter": the filter is conjoined with the join
predicate, and a base row with no surviving match is emitted once with a
NULL (absent) joined side rather than being dropped. -/
def leftJoin (base target : List Row) (joinOn : Row → Row → Bool)
    (filters : List (String × Value)) : List (Row × Option Row) :=
  base.flatMap fun b =>
    if (target.filter fun t => joinOn b t && filtHolds filters t).isEmpty then
      [(b, none)]
    else
      (target.filter fun t => joinOn b t && filtHolds filters t).map
        fun t => (b, some t)

/-- Modelled from the spec: the parameter validation and pipeline of
`FastCRUD.get_joined` (not among the provided sources; exercised by
tests/sqlmodel/crud/test_get_joined.py).  Step 1 of the Query Assembler:
"reject if both single-join shorthand and JoinSpec list supplied"; "reject
if neither supplied".  Only after validation does the row set (the storage
collaborator's reply) get shaped; the single-row operation returns the
first shaped record, if any. -/
def getJoined (joinModel : Option JoinSpec) (joinsConfig : Option (List JoinSpec))
    (basePk : String) (baseCols : List String) (rows : List Row) :
    Except String (Option ShapedRecord) :=
  match joinModel, joinsConfig with
  | some _, some _ =>
      Except.error "Cannot use both single join parameters and joins_config simultaneously."
  | none, none => Except.error "You need one of join_model or joins_config."
  | some j, none => Except.ok (shapeRows basePk baseCols [j] rows).head?
  | none, some js => Except.ok (shapeRows basePk baseCols js rows).head?

/-- Decimal digit character (only used for digits 0 to 9). -/
def digitChr (d : Nat) : Char := Char.ofNat (48 + d)

/-- Little-endian decimal digits, with explicit fuel for structural
recursion. -/
def natDigitsAux : Nat → Nat → List Nat
  | _, 0 => []
  | 0, _ + 1 => []
  | fuel + 1, n + 1 => (n + 1) % 10 :: natDigitsAux fuel ((n + 1) / 10)

/-- Little-endian decimal digits of a natural number. -/
def natDigits (n : Nat) : List Nat := natDigitsAux n n

/-- Evaluate a little-endian digit list back to a number. -/
def natOfDigits : List Nat → Nat
  | [] => 0
  | d :: ds => d + 10 * natOfDigits ds

/-- Decimal rendering of a natural number (empty for 0; the projector only
renders positive suffix indices). -/
def natRepr (n : Nat) : String := String.mk ((natDigits n).reverse.map digitChr)

/-- An entity as the Column Projector sees it: an optional output prefix and
its projected column names (after any schema restriction). -/
structure PEntity where
  pfxOpt : Option String
  cols : List String
deriving DecidableEq

/-- Flatten the base entity and joins to (prefix-option, column) pairs in
projection order. -/
def allCols (es : List PEntity) : List (Option String × String) :=
  es.flatMap fun e => e.cols.map fun c => (e.pfxOpt, c)

/-- The bare column names of a projection, in order. -/
def bareCols (es : List PEntity) : List String :=
  es.flatMap PEntity.cols

/-- The label for the (k+1)-st occurrence of a bare column name: the first
occurrence keeps the unsuffixed name, later ones get a numeric suffix. -/
def renderLabel (c : String) (k : Nat) : String :=
  if k = 0 then c else c ++ "_" ++ natRepr k

/-- Label assignment pass over the flattened column list, carrying the
occurrence count of each bare name seen so far. -/
def assignLabels : (String → Nat) → List (Option String × String) → List String
  | _, [] => []
  | cnt, (some p, c) :: rest => (p ++ c) :: assignLabels cnt rest
  | cnt, (none, c) :: rest =>
    renderLabel c (cnt c) ::
      assignLabels (fun x => if x = c then cnt c + 1 else cnt x) rest

/-- Modelled from the spec: the Column Projector label assignment (the
projection code of `FastCRUD` is not among the provided sources).  "Label
assignment: prefix + column_name when prefix set; else bare column_name,
with a numeric disambiguation suffix (_1, _2, ...) for the second and later
occurrence of an identical bare name across entities — first entity keeps
unsuffixed name." -/
def project (es : List PEntity) : List String :=
  assignLabels (fun _ => 0) (allCols es)

/-- A model column as the endpoint helper sees it: its name and whether it
is marked unique.  From src/fastcrud/endpoint/helper.py. -/
structure ColumnDef where
  name : String
  unique : Bool
deriving DecidableEq

/-- `_extract_unique_columns` (src/fastcrud/endpoint/helper.py): the
columns of the model that are marked unique, in declaration order. -/
def extractUniqueColumns (cols : List ColumnDef) : List ColumnDef :=
  cols.filter fun c => c.unique

/-- Python `str()` of a value, as interpolated into the duplicate message. -/
def valueStr : Value → String
  | .vnull => "None"
  | .vint n => toString n
  | .vstr s => s

/-- Outcome of the create endpoint: a DuplicateValueException with its
message, or the created item. -/
inductive CreateOutcome where
  | duplicate : String → CreateOutcome
  | created : Row → CreateOutcome
deriving DecidableEq

/-- The duplicate-check loop of `EndpointCreator._create_item`
(src/fastcrud/endpoint/endpoint_creator.py): iterate the unique columns in
order; for the first one that is an attribute of the payload and whose
value already exists in a database row, produce the
DuplicateValueException message. -/
def createLoop (db : List Row) (item : Row) : List ColumnDef → Option String
  | [] => none
  | c :: cs =>
    match List.lookup c.name item with
    | none => createLoop db item cs
    | some v =>
      if db.any fun r => decide (lookupV r c.name = v) then
        some ("Value " ++ valueStr v ++ " is already registered")
      else createLoop db item cs

/-- `EndpointCreator._create_item` (src/fastcrud/endpoint/endpoint_creator.py):
check each unique column of the model against the payload and the existing
rows; on a duplicate, raise and leave the database unchanged; otherwise
call `crud.create`, modelled as appending the payload row. -/
def createItem (model : List ColumnDef) (db : List Row) (item : Row) :
    List Row × CreateOutcome :=
  match createLoop db item (extractUniqueColumns model) with
  | some msg => (db, CreateOutcome.duplicate msg)
  | none => (db ++ [item], CreateOutcome.created item)

/-- The valid CRUD method names (`CRUDMethods` in
src/fastcrud/endpoint/helper.py). -/
def validMethodNames : List String :=
  ["create", "read", "read_multi", "read_paginated", "update", "delete", "db_delete"]

/-- Validation of a method list against `CRUDMethods`, as re-raised by
`add_routes_to_router`; `none` selects the given default list. -/
def checkMethods (which : String) (ms : Option (List String))
    (deflt : List String) : Except String (List String) :=
  match ms with
  | none => Except.ok deflt
  | some ms =>
    if ms.all fun m => decide (m ∈ validMethodNames) then Except.ok ms
    else Except.error ("Invalid CRUD methods in " ++ which)

/-- The routes registered by the seven conditional `add_api_route` calls of
`EndpointCreator.add_routes_to_router`, as (operation, HTTP method) pairs;
`db_delete` additionally requires a delete schema. -/
def routeOps (inc del : List String) (hasDeleteSchema : Bool) :
    List (String × String) :=
  (if "create" ∈ inc ∧ "create" ∉ del then [("create", "POST")] else []) ++
  (if "read" ∈ inc ∧ "read" ∉ del then [("read", "GET")] else []) ++
  (if "read_multi" ∈ inc ∧ "read_multi" ∉ del then [("read_multi", "GET")] else []) ++
  (if "read_paginated" ∈ inc ∧ "read_paginated" ∉ del then
    [("read_paginated", "GET")] else []) ++
  (if "update" ∈ inc ∧ "update" ∉ del then [("update", "PATCH")] else []) ++
  (if "delete" ∈ inc ∧ "delete" ∉ del then [("delete", "DELETE")] else []) ++
  (if "db_delete" ∈ inc ∧ "db_delete" ∉ del ∧ hasDeleteSchema then
    [("db_delete", "DELETE")] else [])

/-- `EndpointCreator.add_routes_to_router`
(src/fastcrud/endpoint/endpoint_creator.py): reject supplying both
`included_methods` and `deleted_methods` before any route is registered;
validate the method lists; then append the selected routes to the router. -/
def addRoutesToRouter (router : List (String × String))
    (includedMethods deletedMethods : Option (List String))
    (hasDeleteSchema : Bool) : Except String (List (String × String)) :=
  if includedMethods.isSome && deletedMethods.isSome then
    Except.error "Cannot use both \x27included_methods\x27 and \x27deleted_methods\x27 simultaneously."
  else
    match checkMethods "included_methods" includedMethods validMethodNames with
    | Except.error e => Except.error e
    | Except.ok inc =>
      match checkMethods "deleted_methods" deletedMethods [] with
      | Except.error e => Except.error e
      | Except.ok del => Except.ok (router ++ routeOps inc del hasDeleteSchema)

/-- Witness data: a base row whose only join candidate fails the join
filter. -/
def wBaseRow : Row :=
  [("id", Value.vint 1), ("name", Value.vstr "Alice"), ("tier_id", Value.vint 1)]

/-- Witness data: the joined tier row (name "Free", not "Premium"). -/
def wTierRow : Row := [("id", Value.vint 1), ("name", Value.vstr "Free")]

/-- Witness data: the join predicate tier_id = id. -/
def wJoinOn : Row → Row → Bool :=
  fun b t => decide (lookupV b "tier_id" = lookupV t "id")

/-- Witness data: the one-to-many articles join of the card tests. -/
def wArtJoin : JoinSpec :=
  { pfx := "articles_", cols := ["id", "title", "card_id"], oneToMany := true }

/-- Witness data: one card with three articles, as the flat joined row set. -/
def wCardRows : List Row :=
  [[("id", Value.vint 1), ("title", Value.vstr "Test Card"),
    ("articles_id", Value.vint 1), ("articles_title", Value.vstr "Article 1"),
    ("articles_card_id", Value.vint 1)],
   [("id", Value.vint 1), ("title", Value.vstr "Test Card"),
    ("articles_id", Value.vint 2), ("articles_title", Value.vstr "Article 2"),
    ("articles_card_id", Value.vint 1)],
   [("id", Value.vint 1), ("title", Value.vstr "Test Card"),
    ("articles_id", Value.vint 3), ("articles_title", Value.vstr "Article 3"),
    ("articles_card_id", Value.vint 1)]]

/-- Witness data: the shaped record of the card with three articles. -/
def wCardRec : ShapedRecord :=
  shapeGroup ["id", "title"] [wArtJoin] (Value.vint 1) wCardRows

/-- Witness data: a card with no articles (all join columns NULL). -/
def wCard3Rows : List Row :=
  [[("id", Value.vint 3), ("title", Value.vstr "Test Card 3"),
    ("articles_id", Value.vnull), ("articles_title", Value.vnull),
    ("articles_card_id", Value.vnull)]]

/-- Witness data: the shaped record of the card with no articles. -/
def wCard3Rec : ShapedRecord :=
  shapeGroup ["id", "title"] [wArtJoin] (Value.vint 3) wCard3Rows

/-- Witness data: the one-to-one client join of the task tests. -/
def wClientJoin : JoinSpec :=
  { pfx := "client_", cols := ["name"], oneToMany := false }

/-- Witness data: a task with a client. -/
def wTask1 : Row :=
  [("id", Value.vint 1), ("name", Value.vstr "Task 1"),
   ("client_id", Value.vint 1), ("client_name", Value.vstr "Client A")]

/-- Witness data: a task with no client (join columns NULL). -/
def wTask3 : Row :=
  [("id", Value.vint 3), ("name", Value.vstr "Task 3"),
   ("client_id", Value.vnull), ("client_name", Value.vnull)]

/-- Witness data: the shaped record of the task with a client. -/
def wTask1Rec : ShapedRecord :=
  shapeGroup ["id", "name"] [wClientJoin] (Value.vint 1) [wTask1]

/-- Witness data: the shaped record of the task with no client. -/
def wTask3Rec : ShapedRecord :=
  shapeGroup ["id", "name"] [wClientJoin] (Value.vint 3) [wTask3]

/-- Witness data: rows for the sorting scenario (two names tie). -/
def w7a : Row := [("id", Value.vint 1), ("name", Value.vstr "Alice")]

/-- Witness data: second row of the sorting scenario. -/
def w7b : Row := [("id", Value.vint 2), ("name", Value.vstr "Alice")]

/-- Witness data: third row of the sorting scenario. -/
def w7c : Row := [("id", Value.vint 3), ("name", Value.vstr "Bob")]

/-- Witness data: two prefixless entities sharing both column names. -/
def wEnts : List PEntity :=
  [{ pfxOpt := none, cols := ["id", "name"] },
   { pfxOpt := none, cols := ["id", "name"] }]

/-- Witness data: model columns with a unique email column. -/
def wModelCols : List ColumnDef :=
  [{ name := "id", unique := false }, { name := "email", unique := true }]

/-- Witness data: database containing the registered email. -/
def wDb : List Row := [[("id", Value.vint 1), ("email", Value.vstr "a@example.com")]]

/-- Witness data: a payload that duplicates the registered email. -/
def wItem : Row :=
  [("email", Value.vstr "a@example.com"), ("name", Value.vstr "Bob")]

/-- Witness data: a payload with a fresh email. -/
def wItemNew : Row :=
  [("email", Value.vstr "b@example.com"), ("name", Value.vstr "Bob")]

theorem cmp3_eq_iff {α : Type} [LinearOrder α] (x y : α) :
    cmp3 x y = Ordering.eq ↔ x = y := by
  unfold cmp3
  split_ifs with h1 h2
  · simp [h1.ne]
  · simp [h2]
  · simp [h2]

theorem cmp3_lt_iff {α : Type} [LinearOrder α] (x y : α) :
    cmp3 x y = Ordering.lt ↔ x < y := by
  unfold cmp3
  split_ifs with h1 h2
  · simp [h1]
  · subst h2
    simp [lt_irrefl]
  · simp [h1]

theorem cmp3_swap {α : Type} [LinearOrder α] (x y : α) :
    (cmp3 x y).swap = cmp3 y x := by
  unfold cmp3
  rcases lt_trichotomy x y with h | h | h
  · rw [if_pos h, if_neg (lt_asymm h), if_neg (ne_of_gt h)]
    rfl
  · subst h
    rw [if_neg (lt_irrefl x), if_pos rfl]
    rfl
  · rw [if_neg (lt_asymm h), if_neg (ne_of_gt h), if_pos h]
    rfl

/-- Three-way comparison on values: NULL sorts first, then integers, then
strings (integers by numeric order, strings lexicographically). -/
theorem charCmp_eq_iff (a b : Char) : charCmp a b = Ordering.eq ↔ a = b := by
  unfold charCmp
  rw [cmp3_eq_iff]
  constructor
  · intro h
    exact Char.ext (UInt32.toNat.inj h)
  · intro h
    rw [h]

theorem charCmp_swap (a b : Char) : (charCmp a b).swap = charCmp b a :=
  cmp3_swap _ _

theorem charCmp_lt_trans {a b c : Char} (h1 : charCmp a b = Ordering.lt)
    (h2 : charCmp b c = Ordering.lt) : charCmp a c = Ordering.lt := by
  unfold charCmp at *
  rw [cmp3_lt_iff] at *
  exact Nat.lt_trans h1 h2

theorem listCharCmp_eq_iff :
    ∀ as bs : List Char, listCharCmp as bs = Ordering.eq ↔ as = bs := by
  intro as
  induction as with
  | nil =>
    intro bs
    cases bs <;> simp [listCharCmp]
  | cons a as ih =>
    intro bs
    cases bs with
    | nil => simp [listCharCmp]
    | cons b bs =>
      simp only [listCharCmp]
      cases h : charCmp a b
      · constructor
        · intro hc
          exact Ordering.noConfusion hc
        · intro hc
          injection hc with h1 h2
          have h3 := (charCmp_eq_iff a b).2 h1
          rw [h] at h3
          exact Ordering.noConfusion h3
      · have hab := (charCmp_eq_iff a b).1 h
        subst hab
        show listCharCmp as bs = Ordering.eq ↔ a :: as = a :: bs
        rw [ih bs]
        simp
      · constructor
        · intro hc
          exact Ordering.noConfusion hc
        · intro hc
          injection hc with h1 h2
          have h3 := (charCmp_eq_iff a b).2 h1
          rw [h] at h3
          exact Ordering.noConfusion h3

theorem listCharCmp_swap :
    ∀ as bs : List Char, (listCharCmp as bs).swap = listCharCmp bs as := by
  intro as
  induction as with
  | nil =>
    intro bs
    cases bs <;> rfl
  | cons a as ih =>
    intro bs
    cases bs with
    | nil => rfl
    | cons b bs =>
      simp only [listCharCmp]
      cases h : charCmp a b
      · have hba : charCmp b a = Ordering.gt := by
          rw [← charCmp_swap, h]
          rfl
        rw [hba]
        rfl
      · have hba : charCmp b a = Ordering.eq := by
          rw [← charCmp_swap, h]
          rfl
        rw [hba]
        exact ih bs
      · have hba : charCmp b a = Ordering.lt := by
          rw [← charCmp_swap, h]
          rfl
        rw [hba]
        rfl

theorem listCharCmp_lt_trans :
    ∀ as bs cs : List Char, listCharCmp as bs = Ordering.lt →
      listCharCmp bs cs = Ordering.lt → listCharCmp as cs = Ordering.lt := by
  intro as
  induction as with
  | nil =>
    intro bs cs h1 h2
    cases bs with
    | nil => exact Ordering.noConfusion h1
    | cons b bs =>
      cases cs with
      | nil => exact Ordering.noConfusion h2
      | cons c cs => rfl
  | cons a as ih =>
    intro bs cs h1 h2
    cases bs with
    | nil => exact Ordering.noConfusion h1
    | cons b bs =>
      cases cs with
      | nil => exact Ordering.noConfusion h2
      | cons c cs =>
        simp only [listCharCmp] at h1 h2 ⊢
        cases g1 : charCmp a b <;> rw [g1] at h1
        · cases g2 : charCmp b c <;> rw [g2] at h2
          · rw [charCmp_lt_trans g1 g2]
          · have hbc := (charCmp_eq_iff b c).1 g2
            subst hbc
            rw [g1]
          · exact Ordering.noConfusion h2
        · have hab := (charCmp_eq_iff a b).1 g1
          subst hab
          cases g2 : charCmp a c <;> rw [g2] at h2 <;>
            first
              | rfl
              | exact ih bs cs h1 h2
              | exact Ordering.noConfusion h2
        · exact Ordering.noConfusion h1

theorem strCmp_eq_iff (a b : String) : strCmp a b = Ordering.eq ↔ a = b := by
  unfold strCmp
  rw [listCharCmp_eq_iff]
  exact String.ext_iff.symm

theorem strCmp_swap (a b : String) : (strCmp a b).swap = strCmp b a :=
  listCharCmp_swap _ _

theorem strCmp_lt_trans {a b c : String} (h1 : strCmp a b = Ordering.lt)
    (h2 : strCmp b c = Ordering.lt) : strCmp a c = Ordering.lt :=
  listCharCmp_lt_trans _ _ _ h1 h2

theorem Value.cmp_eq_iff (a b : Value) : Value.cmp a b = Ordering.eq ↔ a = b := by
  cases a <;> cases b <;> simp [Value.cmp, cmp3_eq_iff, strCmp_eq_iff]

theorem Value.cmp_swap (a b : Value) : (Value.cmp a b).swap = Value.cmp b a := by
  cases a <;> cases b <;> simp [Value.cmp, cmp3_swap, strCmp_swap] <;> rfl

theorem Value.cmp_lt_trans {a b c : Value} (h1 : Value.cmp a b = Ordering.lt)
    (h2 : Value.cmp b c = Ordering.lt) : Value.cmp a c = Ordering.lt := by
  cases a <;> cases b <;> cases c <;>
    simp_all [Value.cmp, cmp3_lt_iff] <;>
    first
      | exact lt_trans h1 h2
      | exact strCmp_lt_trans h1 h2

/-- Sort direction for one sort key. -/
theorem rowCmp_cons (k : String × SortOrder) (ks : List (String × SortOrder))
    (a b : Row) :
    rowCmp (k :: ks) a b =
      match keyCmp k a b with
      | Ordering.eq => rowCmp ks a b
      | o => o := rfl

/-- The non-strict order induced by `rowCmp`. -/
theorem keyCmp_swap (k : String × SortOrder) (a b : Row) :
    (keyCmp k a b).swap = keyCmp k b a := by
  obtain ⟨s, d⟩ := k
  cases d
  · simp only [keyCmp]
    exact Value.cmp_swap _ _
  · simp only [keyCmp, Ordering.swap_swap]
    rw [← Value.cmp_swap]

theorem keyCmp_eq_val {k : String × SortOrder} {a b : Row}
    (h : keyCmp k a b = Ordering.eq) : lookupV a k.1 = lookupV b k.1 := by
  obtain ⟨s, d⟩ := k
  cases d <;> simp only [keyCmp] at h
  · exact (Value.cmp_eq_iff _ _).1 h
  · cases hc : Value.cmp (lookupV a s) (lookupV b s) <;> rw [hc] at h
    · exact Ordering.noConfusion h
    · exact (Value.cmp_eq_iff _ _).1 hc
    · exact Ordering.noConfusion h

theorem keyCmp_congr_left {k : String × SortOrder} {a b : Row}
    (h : lookupV a k.1 = lookupV b k.1) (c : Row) : keyCmp k a c = keyCmp k b c := by
  obtain ⟨s, d⟩ := k
  cases d <;> simp only [keyCmp] <;> rw [h]

theorem keyCmp_congr_right {k : String × SortOrder} {a b : Row}
    (h : lookupV a k.1 = lookupV b k.1) (c : Row) : keyCmp k c a = keyCmp k c b := by
  obtain ⟨s, d⟩ := k
  cases d <;> simp only [keyCmp] <;> rw [h]

theorem keyCmp_lt_trans {k : String × SortOrder} {a b c : Row}
    (h1 : keyCmp k a b = Ordering.lt) (h2 : keyCmp k b c = Ordering.lt) :
    keyCmp k a c = Ordering.lt := by
  obtain ⟨s, d⟩ := k
  cases d <;> simp only [keyCmp] at h1 h2 ⊢
  · exact Value.cmp_lt_trans h1 h2
  · have g1 : Value.cmp (lookupV b s) (lookupV a s) = Ordering.lt := by
      have hs := Value.cmp_swap (lookupV a s) (lookupV b s)
      cases hc : Value.cmp (lookupV a s) (lookupV b s) <;> rw [hc] at h1 hs
      · exact Ordering.noConfusion h1
      · exact Ordering.noConfusion h1
      · rw [← hs]
        rfl
    have g2 : Value.cmp (lookupV c s) (lookupV b s) = Ordering.lt := by
      have hs := Value.cmp_swap (lookupV b s) (lookupV c s)
      cases hc : Value.cmp (lookupV b s) (lookupV c s) <;> rw [hc] at h2 hs
      · exact Ordering.noConfusion h2
      · exact Ordering.noConfusion h2
      · rw [← hs]
        rfl
    have g3 : Value.cmp (lookupV c s) (lookupV a s) = Ordering.lt :=
      Value.cmp_lt_trans g2 g1
    have g4 : Value.cmp (lookupV a s) (lookupV c s) = Ordering.gt := by
      have hs := Value.cmp_swap (lookupV c s) (lookupV a s)
      rw [g3] at hs
      rw [← hs]
      rfl
    rw [g4]
    rfl

theorem rowCmp_swap (ks : List (String × SortOrder)) (a b : Row) :
    (rowCmp ks a b).swap = rowCmp ks b a := by
  induction ks with
  | nil => rfl
  | cons k ks ih =>
    rw [rowCmp_cons, rowCmp_cons]
    cases h : keyCmp k a b
    · have hba : keyCmp k b a = Ordering.gt := by
        rw [← keyCmp_swap, h]
        rfl
      rw [hba]
      rfl
    · have hba : keyCmp k b a = Ordering.eq := by
        rw [← keyCmp_swap, h]
        rfl
      rw [hba]
      exact ih
    · have hba : keyCmp k b a = Ordering.lt := by
        rw [← keyCmp_swap, h]
        rfl
      rw [hba]
      rfl

theorem rowLe_total (ks : List (String × SortOrder)) (a b : Row) :
    rowLe ks a b ∨ rowLe ks b a := by
  unfold rowLe
  cases h : rowCmp ks a b
  · exact Or.inl (by simp [h])
  · exact Or.inl (by simp [h])
  · refine Or.inr ?_
    rw [← rowCmp_swap, h]
    decide

theorem rowLe_trans {ks : List (String × SortOrder)} {a b c : Row}
    (h1 : rowLe ks a b) (h2 : rowLe ks b c) : rowLe ks a c := by
  unfold rowLe at *
  induction ks with
  | nil => exact fun hc => Ordering.noConfusion hc
  | cons k ks ih =>
    rw [rowCmp_cons] at h1 h2 ⊢
    cases g1 : keyCmp k a b <;> rw [g1] at h1
    · -- a strictly below b at the head key
      cases g2 : keyCmp k b c <;> rw [g2] at h2
      · rw [keyCmp_lt_trans g1 g2]
        exact fun hc => Ordering.noConfusion hc
      · have g3 : keyCmp k a c = Ordering.lt := by
          rw [← keyCmp_congr_right (keyCmp_eq_val g2) a]
          exact g1
        rw [g3]
        exact fun hc => Ordering.noConfusion hc
      · exact absurd rfl h2
    · -- tie at the head key between a and b
      cases g2 : keyCmp k b c <;> rw [g2] at h2
      · have g3 : keyCmp k a c = Ordering.lt := by
          rw [keyCmp_congr_left (keyCmp_eq_val g1) c]
          exact g2
        rw [g3]
        exact fun hc => Ordering.noConfusion hc
      · have g3 : keyCmp k a c = Ordering.eq := by
          rw [keyCmp_congr_left (keyCmp_eq_val g1) c]
          exact g2
        rw [g3]
        exact ih h1 h2
      · exact absurd rfl h2
    · exact absurd rfl h1

/-- One entry of a joins_config list, as the Row Shaper sees it: the output
prefix of the join, the (stripped) column names the join projects, and its
relationship cardinality.  Modelled from the spec ("JoinSpec — one join
operation"); the `JoinConfig` class itself is not among the provided
sources. -/
theorem shapeGroup_pk (baseCols : List String) (joins : List JoinSpec) (k : Value)
    (g : List Row) : (shapeGroup baseCols joins k g).pk = k := rfl

theorem shapeRows_map_pk (basePk : String) (baseCols : List String)
    (joins : List JoinSpec) (rows : List Row) :
    (shapeRows basePk baseCols joins rows).map ShapedRecord.pk =
      firstSeen (rows.map fun r => lookupV r basePk) := by
  unfold shapeRows
  rw [List.map_map]
  exact List.map_id _

theorem mem_shapeRows {basePk : String} {baseCols : List String}
    {joins : List JoinSpec} {rows : List Row} {rec : ShapedRecord} :
    rec ∈ shapeRows basePk baseCols joins rows ↔
      ∃ k ∈ firstSeen (rows.map fun r => lookupV r basePk),
        rec = shapeGroup baseCols joins k
          (rows.filter fun r => decide (lookupV r basePk = k)) := by
  unfold shapeRows
  rw [List.mem_map]
  constructor
  · rintro ⟨k, hk, hrec⟩
    exact ⟨k, hk, hrec.symm⟩
  · rintro ⟨k, hk, hrec⟩
    exact ⟨k, hk, hrec.symm⟩

theorem shapeGroup_many_mem {joins : List JoinSpec} {j : JoinSpec}
    (hj : j ∈ joins) (hm : j.oneToMany = true) (baseCols : List String)
    (k : Value) (g : List Row) :
    (stripJoinKey j.pfx,
      NestedVal.many
        (((g.filter fun r => !(allNullB (joinGroup j r))).map (joinGroup j)))) ∈
      (shapeGroup baseCols joins k g).joins := by
  unfold shapeGroup
  refine List.mem_map.2 ⟨j, hj, ?_⟩
  rw [hm]
  simp

theorem shapeGroup_one_mem {joins : List JoinSpec} {j : JoinSpec}
    (hj : j ∈ joins) (hm : j.oneToMany = false) (baseCols : List String)
    (k : Value) (g : List Row) :
    (stripJoinKey j.pfx,
      if allNullB (joinGroup j (g.headD ([] : List (String × Value)))) then
        NestedVal.nul
      else NestedVal.one (joinGroup j (g.headD ([] : List (String × Value))))) ∈
      (shapeGroup baseCols joins k g).joins := by
  unfold shapeGroup
  refine List.mem_map.2 ⟨j, hj, ?_⟩
  rw [hm]
  simp

theorem firstSeenAux_nodup (l : List Value) :
    ∀ seen, (firstSeenAux seen l).Nodup ∧ ∀ x ∈ firstSeenAux seen l, x ∉ seen := by
  induction l with
  | nil =>
    intro seen
    refine ⟨List.nodup_nil, ?_⟩
    intro x hx
    cases hx
  | cons x xs ih =>
    intro seen
    by_cases hx : x ∈ seen
    · simp only [firstSeenAux, if_pos hx]
      exact ih seen
    · simp only [firstSeenAux, if_neg hx]
      obtain ⟨hnd, hmem⟩ := ih (x :: seen)
      refine ⟨List.nodup_cons.2 ⟨?_, hnd⟩, ?_⟩
      · intro hxr
        exact (hmem x hxr) (List.mem_cons_self x seen)
      · intro y hy
        rcases List.mem_cons.1 hy with rfl | hy2
        · exact hx
        · intro hys
          exact (hmem y hy2) (List.mem_cons_of_mem _ hys)

theorem firstSeen_nodup (l : List Value) : (firstSeen l).Nodup :=
  (firstSeenAux_nodup l []).1

theorem createLoop_eq_none (db : List Row) (item : Row) (cs : List ColumnDef)
    (h : ∀ c ∈ cs, ∀ v, List.lookup c.name item = some v →
      (db.any fun r => decide (lookupV r c.name = v)) = false) :
    createLoop db item cs = none := by
  induction cs with
  | nil => rfl
  | cons c cs ih =>
    cases hl : List.lookup c.name item with
    | none =>
      simp only [createLoop, hl]
      exact ih fun c2 hc2 => h c2 (List.mem_cons_of_mem _ hc2)
    | some v =>
      have hf := h c (List.mem_cons_self _ _) v hl
      simp only [createLoop, hl, hf, Bool.false_eq_true, if_false]
      exact ih fun c2 hc2 => h c2 (List.mem_cons_of_mem _ hc2)

theorem createLoop_eq_some (db : List Row) (item : Row) (cs : List ColumnDef)
    (h : ∃ c ∈ cs, ∃ v, List.lookup c.name item = some v ∧
      (db.any fun r => decide (lookupV r c.name = v)) = true) :
    ∃ v, createLoop db item cs =
      some ("Value " ++ valueStr v ++ " is already registered") := by
  induction cs with
  | nil =>
    obtain ⟨c, hc, _⟩ := h
    cases hc
  | cons c cs ih =>
    cases hl : List.lookup c.name item with
    | none =>
      simp only [createLoop, hl]
      obtain ⟨c2, hc2, v, hv, hany⟩ := h
      rcases List.mem_cons.1 hc2 with rfl | h2
      · rw [hl] at hv
        cases hv
      · exact ih ⟨c2, h2, v, hv, hany⟩
    | some v =>
      by_cases hany : (db.any fun r => decide (lookupV r c.name = v)) = true
      · simp only [createLoop, hl, if_pos hany]
        exact ⟨v, rfl⟩
      · simp only [createLoop, hl, if_neg hany]
        obtain ⟨c2, hc2, v2, hv2, hany2⟩ := h
        rcases List.mem_cons.1 hc2 with rfl | h2
        · rw [hl] at hv2
          cases hv2
          exact absurd hany2 hany
        · exact ih ⟨c2, h2, v2, hv2, hany2⟩

/-- Claim C9: for every invocation of the create endpoint, for each unique
column of the model whose name is an attribute of the submitted payload, if
a row already exists with that attribute's value, the endpoint raises
DuplicateValueException with message "Value ... is already registered" and
does not create the item; only when no such duplicate exists is crud.create
invoked (the database is extended by the payload). -/
theorem c9_create_endpoint_duplicate_check (model : List ColumnDef)
    (db : List Row) (item : Row) :
    ((∃ c ∈ extractUniqueColumns model, ∃ v,
        List.lookup c.name item = some v ∧
        (db.any fun r => decide (lookupV r c.name = v)) = true) →
      (createItem model db item).1 = db ∧
      ∃ v, (createItem model db item).2 =
        CreateOutcome.duplicate ("Value " ++ valueStr v ++ " is already registered")) ∧
    ((∀ c ∈ extractUniqueColumns model, ∀ v,
        List.lookup c.name item = some v →
        (db.any fun r => decide (lookupV r c.name = v)) = false) →
      createItem model db item = (db ++ [item], CreateOutcome.created item)) := by
  constructor
  · intro h
    obtain ⟨v, hv⟩ := createLoop_eq_some db item _ h
    unfold createItem
    rw [hv]
    exact ⟨rfl, v, rfl⟩
  · intro h
    unfold createItem
    rw [createLoop_eq_none db item _ h]

theorem c9_create_endpoint_duplicate_check_witness :
    (createItem wModelCols wDb wItem).1 = wDb ∧
    createItem wModelCols wDb wItemNew =
      (wDb ++ [wItemNew], CreateOutcome.created wItemNew) := by
  have h1 := c9_create_endpoint_duplicate_check wModelCols wDb wItem
  have h2 := c9_create_endpoint_duplicate_check wModelCols wDb wItemNew
  refine ⟨(h1.1 ?_).1, h2.2 ?_⟩
  · exact ⟨{ name := "email", unique := true }, by decide,
      Value.vstr "a@example.com", by decide, by decide⟩
  · decide

/-- Claim C10: for every call to add_routes_to_router with both
included_methods and deleted_methods not None, the call fails with the
ValueError message about using both simultaneously, before any route is
registered (the result is this error for every router, so no route list is
ever produced). -/
theorem c10_add_routes_conflicting_methods (router : List (String × String))
    (inc del : List String) (hasDeleteSchema : Bool) :
    addRoutesToRouter router (some inc) (some del) hasDeleteSchema =
      Except.error
        "Cannot use both \x27included_methods\x27 and \x27deleted_methods\x27 simultaneously." :=
  rfl

/-- Claim C5: for every call to the joined-query operation that supplies
both the single-join shorthand and a joins_config list, the call fails with
the ConfigError "Cannot use both single join parameters and joins_config
simultaneously." — for every row set, so no query is executed. -/
theorem c5_get_joined_conflicting_join_parameters (j : JoinSpec)
    (js : List JoinSpec) (basePk : String) (baseCols : List String)
    (rows : List Row) :
    getJoined (some j) (some js) basePk baseCols rows =
      Except.error
        "Cannot use both single join parameters and joins_config simultaneously." :=
  rfl

/-- Claim C6: for every query whose sort_columns and sort_orders sequences
have unequal lengths, sorting fails with a ConfigError, and the same error
is produced for every row set — the failure happens before any storage
round-trip. -/
theorem c6_apply_sorting_mismatched_lengths (cols ords : List String)
    (h : cols.length ≠ ords.length) (rows : List Row) :
    applySorting cols (some ords) rows =
      Except.error "ConfigError: sort_columns and sort_orders must have the same length" := by
  simp only [applySorting]
  rw [if_pos h]

theorem c6_apply_sorting_mismatched_lengths_witness :
    applySorting ["name", "id"] (some ["asc"]) ([] : List Row) =
      Except.error "ConfigError: sort_columns and sort_orders must have the same length" :=
  c6_apply_sorting_mismatched_lengths ["name", "id"] ["asc"] (by decide) []

/-- Claim C1: for every left join with join-level filters, the base rows
present in the result are exactly the base rows of the input — the same
base rows as without the filter — and a base row all of whose join matches
fail the filter is kept, paired with a NULL joined side, rather than being
excluded. -/
theorem c1_left_join_filters_keep_base_rows (base target : List Row)
    (joinOn : Row → Row → Bool) (filters : List (String × Value)) (b : Row) :
    (b ∈ (leftJoin base target joinOn filters).map Prod.fst ↔ b ∈ base) ∧
    (b ∈ base →
      (∀ t ∈ target, joinOn b t = true → filtHolds filters t = false) →
      (b, (none : Option Row)) ∈ leftJoin base target joinOn filters) := by
  constructor
  · constructor
    · intro hb
      obtain ⟨p, hp, hfst⟩ := List.mem_map.1 hb
      obtain ⟨b2, hb2, hpin⟩ := List.mem_flatMap.1 hp
      by_cases hms :
          (target.filter fun t => joinOn b2 t && filtHolds filters t).isEmpty
      · rw [if_pos hms] at hpin
        rw [List.mem_singleton.1 hpin] at hfst
        have hbb : b2 = b := hfst
        exact hbb ▸ hb2
      · rw [if_neg hms] at hpin
        obtain ⟨t, _, hpt⟩ := List.mem_map.1 hpin
        rw [← hpt] at hfst
        have hbb : b2 = b := hfst
        exact hbb ▸ hb2
    · intro hb
      by_cases hms :
          (target.filter fun t => joinOn b t && filtHolds filters t).isEmpty
      · refine List.mem_map.2 ⟨(b, none), ?_, rfl⟩
        refine List.mem_flatMap.2 ⟨b, hb, ?_⟩
        rw [if_pos hms]
        exact List.mem_singleton.2 rfl
      · obtain ⟨t, ht⟩ := List.exists_mem_of_ne_nil _
          (fun hnil => hms (List.isEmpty_iff.2 hnil))
        refine List.mem_map.2 ⟨(b, some t), ?_, rfl⟩
        refine List.mem_flatMap.2 ⟨b, hb, ?_⟩
        rw [if_neg hms]
        exact List.mem_map.2 ⟨t, ht, rfl⟩
  · intro hb hfail
    have hnil : (target.filter fun t => joinOn b t && filtHolds filters t) = [] := by
      rw [List.filter_eq_nil_iff]
      intro t ht
      intro hand
      obtain ⟨h1, h2⟩ := Bool.and_eq_true_iff.1 hand
      rw [hfail t ht h1] at h2
      exact Bool.noConfusion h2
    refine List.mem_flatMap.2 ⟨b, hb, ?_⟩
    rw [if_pos (List.isEmpty_iff.2 hnil)]
    exact List.mem_singleton.2 rfl

theorem c1_left_join_filters_keep_base_rows_witness :
    (wBaseRow ∈
      (leftJoin [wBaseRow] [wTierRow] wJoinOn
        [("name", Value.vstr "Premium")]).map Prod.fst) ∧
    (wBaseRow, (none : Option Row)) ∈
      leftJoin [wBaseRow] [wTierRow] wJoinOn [("name", Value.vstr "Premium")] := by
  have h := c1_left_join_filters_keep_base_rows [wBaseRow] [wTierRow] wJoinOn
    [("name", Value.vstr "Premium")] wBaseRow
  exact ⟨h.1.2 (by decide), h.2 (by decide) (by decide)⟩

/-- Claim C2: for every nested one-to-many query, the shaped result has
exactly one top-level record per distinct base-entity primary key in the
row set, in first-seen order (the record keys are exactly the first-seen
deduplication of the row keys, with no duplicates), and each record's
nested list for a one-to-many join holds one entry per matching child row
of its group, in row-emission order. -/
theorem c2_one_record_per_pk_children_in_order (basePk : String)
    (baseCols : List String) (joins : List JoinSpec) (rows : List Row) :
    ((shapeRows basePk baseCols joins rows).map ShapedRecord.pk =
      firstSeen (rows.map fun r => lookupV r basePk)) ∧
    ((shapeRows basePk baseCols joins rows).map ShapedRecord.pk).Nodup ∧
    (∀ j ∈ joins, j.oneToMany = true →
      ∀ rec ∈ shapeRows basePk baseCols joins rows,
        (stripJoinKey j.pfx,
          NestedVal.many
            ((((rows.filter fun r => decide (lookupV r basePk = rec.pk)).filter
                fun r => !(allNullB (joinGroup j r))).map (joinGroup j)))) ∈
          rec.joins) := by
  refine ⟨shapeRows_map_pk basePk baseCols joins rows, ?_, ?_⟩
  · rw [shapeRows_map_pk]
    exact firstSeen_nodup _
  · intro j hj hm rec hrec
    obtain ⟨k, hk, rfl⟩ := mem_shapeRows.1 hrec
    rw [shapeGroup_pk]
    exact shapeGroup_many_mem hj hm baseCols k _

theorem c2_one_record_per_pk_children_in_order_witness :
    ((shapeRows "id" ["id", "title"] [wArtJoin] wCardRows).map ShapedRecord.pk =
      firstSeen (wCardRows.map fun r => lookupV r "id")) ∧
    ("articles",
      NestedVal.many
        [[("id", Value.vint 1), ("title", Value.vstr "Article 1"),
          ("card_id", Value.vint 1)],
         [("id", Value.vint 2), ("title", Value.vstr "Article 2"),
          ("card_id", Value.vint 1)],
         [("id", Value.vint 3), ("title", Value.vstr "Article 3"),
          ("card_id", Value.vint 1)]]) ∈ wCardRec.joins := by
  have h := c2_one_record_per_pk_children_in_order "id" ["id", "title"]
    [wArtJoin] wCardRows
  refine ⟨h.1, ?_⟩
  have h2 := h.2.2 wArtJoin (by decide) rfl wCardRec (by decide)
  have he :
      (stripJoinKey wArtJoin.pfx,
        NestedVal.many
          ((((wCardRows.filter fun r => decide (lookupV r "id" = wCardRec.pk)).filter
              fun r => !(allNullB (joinGroup wArtJoin r))).map (joinGroup wArtJoin)))) =
        ("articles",
          NestedVal.many
            [[("id", Value.vint 1), ("title", Value.vstr "Article 1"),
              ("card_id", Value.vint 1)],
             [("id", Value.vint 2), ("title", Value.vstr "Article 2"),
              ("card_id", Value.vint 1)],
             [("id", Value.vint 3), ("title", Value.vstr "Article 3"),
              ("card_id", Value.vint 1)]]) := by decide
  rw [he] at h2
  exact h2

/-- Claim C3: for every nested one-to-many query, a base-entity record all
of whose rows have an all-NULL join group (zero matching children) carries
the empty list as its nested value — the `many []` constructor, never `nul`
and never a list with a placeholder entry. -/
theorem c3_zero_children_empty_list (basePk : String) (baseCols : List String)
    (joins : List JoinSpec) (rows : List Row) (j : JoinSpec) (hj : j ∈ joins)
    (hm : j.oneToMany = true) (rec : ShapedRecord)
    (hrec : rec ∈ shapeRows basePk baseCols joins rows)
    (hnull : ∀ r ∈ rows, lookupV r basePk = rec.pk →
      allNullB (joinGroup j r) = true) :
    (stripJoinKey j.pfx, NestedVal.many []) ∈ rec.joins := by
  obtain ⟨k, hk, rfl⟩ := mem_shapeRows.1 hrec
  rw [shapeGroup_pk] at hnull
  have hfil :
      ((rows.filter fun r => decide (lookupV r basePk = k)).filter
        fun r => !(allNullB (joinGroup j r))) = [] := by
    rw [List.filter_eq_nil_iff]
    intro r hr
    have hr2 := List.mem_filter.1 hr
    have hpk : lookupV r basePk = k := of_decide_eq_true hr2.2
    rw [hnull r hr2.1 hpk]
    simp
  have h := shapeGroup_many_mem hj hm baseCols k
    (rows.filter fun r => decide (lookupV r basePk = k))
  rw [hfil] at h
  exact h

theorem c3_zero_children_empty_list_witness :
    ("articles", NestedVal.many []) ∈ wCard3Rec.joins ∧
    stripJoinKey wArtJoin.pfx = "articles" := by
  have h := c3_zero_children_empty_list "id" ["id", "title"] [wArtJoin]
    wCard3Rows wArtJoin (by decide) rfl wCard3Rec (by decide) (by decide)
  have he : stripJoinKey wArtJoin.pfx = "articles" := by decide
  rw [he] at h
  exact ⟨h, he⟩

/-- Claim C4: for every nested one-to-one join shaped from a single row, if
every column of the join's group is NULL for the row, the nested value
under the join's key is `nul`; otherwise it is the dict of the join's
columns with the prefix stripped from the keys. -/
theorem c4_one_to_one_null_or_dict (basePk : String) (baseCols : List String)
    (joins : List JoinSpec) (r : Row) (j : JoinSpec) (hj : j ∈ joins)
    (hm : j.oneToMany = false) (rec : ShapedRecord)
    (hrec : rec ∈ shapeRows basePk baseCols joins [r]) :
    (stripJoinKey j.pfx,
      if allNullB (joinGroup j r) then NestedVal.nul
      else NestedVal.one (joinGroup j r)) ∈ rec.joins := by
  obtain ⟨k, hk, rfl⟩ := mem_shapeRows.1 hrec
  have hkv : k = lookupV r basePk := by
    simp [firstSeen, firstSeenAux] at hk
    exact hk
  subst hkv
  have hg : ([r].filter fun r2 => decide (lookupV r2 basePk = lookupV r basePk)) =
      [r] := by
    simp
  rw [hg]
  exact shapeGroup_one_mem hj hm baseCols _ [r]

theorem c4_one_to_one_null_or_dict_witness :
    (stripJoinKey wClientJoin.pfx, NestedVal.nul) ∈ wTask3Rec.joins ∧
    (stripJoinKey wClientJoin.pfx,
      NestedVal.one [("name", Value.vstr "Client A")]) ∈ wTask1Rec.joins := by
  have h3 := c4_one_to_one_null_or_dict "id" ["id", "name"] [wClientJoin]
    wTask3 wClientJoin (by decide) rfl wTask3Rec (by decide)
  have h1 := c4_one_to_one_null_or_dict "id" ["id", "name"] [wClientJoin]
    wTask1 wClientJoin (by decide) rfl wTask1Rec (by decide)
  constructor
  · have he :
        (if allNullB (joinGroup wClientJoin wTask3) then NestedVal.nul
          else NestedVal.one (joinGroup wClientJoin wTask3)) = NestedVal.nul := by
      decide
    rw [he] at h3
    exact h3
  · have he :
        (if allNullB (joinGroup wClientJoin wTask1) then NestedVal.nul
          else NestedVal.one (joinGroup wClientJoin wTask1)) =
          NestedVal.one [("name", Value.vstr "Client A")] := by
      decide
    rw [he] at h1
    exact h1

theorem rowLe_name_id (r1 r2 : Row) :
    rowLe [("name", SortOrder.asc), ("id", SortOrder.desc)] r1 r2 ↔
      (Value.cmp (lookupV r1 "name") (lookupV r2 "name") = Ordering.lt ∨
        (lookupV r1 "name" = lookupV r2 "name" ∧
          Value.cmp (lookupV r1 "id") (lookupV r2 "id") ≠ Ordering.lt)) := by
  unfold rowLe
  simp only [rowCmp, keyCmp]
  cases hn : Value.cmp (lookupV r1 "name") (lookupV r2 "name")
  · simp [hn]
  · have hnv : lookupV r1 "name" = lookupV r2 "name" :=
      (Value.cmp_eq_iff _ _).1 hn
    cases hi : Value.cmp (lookupV r1 "id") (lookupV r2 "id") <;>
      simp [hn, hnv, hi, Ordering.swap]
  · have hne : lookupV r1 "name" ≠ lookupV r2 "name" := by
      intro he
      rw [(Value.cmp_eq_iff _ _).2 he] at hn
      exact Ordering.noConfusion hn
    simp [hn, hne]

/-- Claim C7: for every query with multiple sort pairs, the pairs are
applied in the order given; with sort_columns = name, id and sort_orders =
asc, desc, the output is a permutation of the input ordered by name
ascending with ties broken by id descending. -/
theorem c7_apply_sorting_multiple_columns (rows out : List Row)
    (h : applySorting ["name", "id"] (some ["asc", "desc"]) rows =
      Except.ok out) :
    out.Perm rows ∧
    List.Sorted (fun r1 r2 =>
      Value.cmp (lookupV r1 "name") (lookupV r2 "name") = Ordering.lt ∨
        (lookupV r1 "name" = lookupV r2 "name" ∧
          Value.cmp (lookupV r1 "id") (lookupV r2 "id") ≠ Ordering.lt)) out := by
  have hred : applySorting ["name", "id"] (some ["asc", "desc"]) rows =
      Except.ok (sortRows [("name", SortOrder.asc), ("id", SortOrder.desc)] rows) :=
    rfl
  rw [hred] at h
  injection h with h
  subst h
  constructor
  · exact List.perm_insertionSort _ _
  · haveI ht :
        IsTotal Row (rowLe [("name", SortOrder.asc), ("id", SortOrder.desc)]) :=
      ⟨rowLe_total _⟩
    haveI htr :
        IsTrans Row (rowLe [("name", SortOrder.asc), ("id", SortOrder.desc)]) :=
      ⟨fun _ _ _ h1 h2 => rowLe_trans h1 h2⟩
    have hs := List.sorted_insertionSort
      (rowLe [("name", SortOrder.asc), ("id", SortOrder.desc)]) rows
    exact hs.imp fun hab => (rowLe_name_id _ _).1 hab

theorem c7_apply_sorting_multiple_columns_witness :
    ([w7b, w7a, w7c] : List Row).Perm [w7a, w7b, w7c] ∧
    List.Sorted (fun r1 r2 =>
      Value.cmp (lookupV r1 "name") (lookupV r2 "name") = Ordering.lt ∨
        (lookupV r1 "name" = lookupV r2 "name" ∧
          Value.cmp (lookupV r1 "id") (lookupV r2 "id") ≠ Ordering.lt))
      [w7b, w7a, w7c] := by
  have h1 : sortRows [("name", SortOrder.asc), ("id", SortOrder.desc)]
      [w7a, w7b, w7c] = [w7b, w7a, w7c] := by decide
  exact c7_apply_sorting_multiple_columns [w7a, w7b, w7c] [w7b, w7a, w7c]
    (h1 ▸ rfl)

theorem natOfDigits_natDigitsAux :
    ∀ fuel n, n ≤ fuel → natOfDigits (natDigitsAux fuel n) = n := by
  intro fuel
  induction fuel with
  | zero =>
    intro n hn
    interval_cases n
    rfl
  | succ fuel ih =>
    intro n hn
    cases n with
    | zero => rfl
    | succ n =>
      have hle : (n + 1) / 10 ≤ fuel := by
        have h1 : (n + 1) / 10 < n + 1 :=
          Nat.div_lt_self (Nat.succ_pos n) (by norm_num)
        omega
      simp only [natDigitsAux, natOfDigits]
      rw [ih _ hle]
      exact Nat.mod_add_div (n + 1) 10

theorem natDigits_inj {a b : Nat} (h : natDigits a = natDigits b) : a = b := by
  have ha := natOfDigits_natDigitsAux a a le_rfl
  have hb := natOfDigits_natDigitsAux b b le_rfl
  unfold natDigits at h
  rw [← ha, ← hb, h]

theorem natDigitsAux_lt : ∀ fuel n, ∀ d ∈ natDigitsAux fuel n, d < 10 := by
  intro fuel
  induction fuel with
  | zero =>
    intro n d hd
    cases n <;> simp [natDigitsAux] at hd
  | succ fuel ih =>
    intro n d hd
    cases n with
    | zero => simp [natDigitsAux] at hd
    | succ n =>
      simp only [natDigitsAux] at hd
      rcases List.mem_cons.1 hd with rfl | hd2
      · exact Nat.mod_lt _ (by norm_num)
      · exact ih _ d hd2

theorem digitChr_inj {d1 d2 : Nat} (h1 : d1 < 10) (h2 : d2 < 10)
    (h : digitChr d1 = digitChr d2) : d1 = d2 := by
  interval_cases d1 <;> interval_cases d2 <;>
    first
      | rfl
      | exact absurd h (by decide)

theorem map_digitChr_inj :
    ∀ l1 l2 : List Nat, (∀ d ∈ l1, d < 10) → (∀ d ∈ l2, d < 10) →
      l1.map digitChr = l2.map digitChr → l1 = l2 := by
  intro l1
  induction l1 with
  | nil =>
    intro l2 _ _ h
    cases l2 with
    | nil => rfl
    | cons b bs => simp at h
  | cons a as ih =>
    intro l2 hb1 hb2 h
    cases l2 with
    | nil => simp at h
    | cons b bs =>
      simp only [List.map_cons, List.cons.injEq] at h
      have hab := digitChr_inj (hb1 a (List.mem_cons_self _ _))
        (hb2 b (List.mem_cons_self _ _)) h.1
      rw [hab, ih bs (fun d hd => hb1 d (List.mem_cons_of_mem _ hd))
        (fun d hd => hb2 d (List.mem_cons_of_mem _ hd)) h.2]

theorem natRepr_inj {a b : Nat} (h : natRepr a = natRepr b) : a = b := by
  unfold natRepr at h
  have hd : ((natDigits a).reverse.map digitChr) =
      ((natDigits b).reverse.map digitChr) := congrArg String.data h
  have hrev : (natDigits a).reverse = (natDigits b).reverse :=
    map_digitChr_inj _ _
      (fun d hd2 => natDigitsAux_lt _ _ d (List.mem_reverse.1 hd2))
      (fun d hd2 => natDigitsAux_lt _ _ d (List.mem_reverse.1 hd2)) hd
  exact natDigits_inj (List.reverse_inj.1 hrev)

theorem append_underscore_inj :
    ∀ c1 c2 s1 s2 : List Char, '_' ∉ c1 → '_' ∉ c2 →
      c1 ++ '_' :: s1 = c2 ++ '_' :: s2 → c1 = c2 ∧ s1 = s2 := by
  intro c1
  induction c1 with
  | nil =>
    intro c2 s1 s2 h1 h2 h
    cases c2 with
    | nil =>
      simp only [List.nil_append] at h
      injection h with _ h3
      exact ⟨rfl, h3⟩
    | cons x xs =>
      simp only [List.nil_append, List.cons_append] at h
      injection h with hx _
      have hmem : '_' ∈ x :: xs := by
        rw [hx]
        exact List.mem_cons_self x xs
      exact absurd hmem h2
  | cons y ys ih =>
    intro c2 s1 s2 h1 h2 h
    cases c2 with
    | nil =>
      simp only [List.cons_append, List.nil_append] at h
      injection h with hy _
      have hmem : '_' ∈ y :: ys := by
        rw [← hy]
        exact List.mem_cons_self _ _
      exact absurd hmem h1
    | cons x xs =>
      simp only [List.cons_append] at h
      injection h with hy hrest
      subst hy
      obtain ⟨hc, hs⟩ := ih xs s1 s2
        (fun hm => h1 (List.mem_cons_of_mem _ hm))
        (fun hm => h2 (List.mem_cons_of_mem _ hm)) hrest
      exact ⟨by rw [hc], hs⟩

theorem string_underscore_append_inj {c1 c2 s1 s2 : String}
    (h1 : '_' ∉ c1.data) (h2 : '_' ∉ c2.data)
    (h : c1 ++ "_" ++ s1 = c2 ++ "_" ++ s2) : c1 = c2 ∧ s1 = s2 := by
  have hd := congrArg String.data h
  rw [String.data_append, String.data_append, String.data_append,
    String.data_append] at hd
  have hd2 : c1.data ++ '_' :: s1.data = c2.data ++ '_' :: s2.data := by
    rw [List.append_assoc, List.append_assoc] at hd
    exact hd
  obtain ⟨hc, hs⟩ := append_underscore_inj _ _ _ _ h1 h2 hd2
  exact ⟨String.ext hc, String.ext hs⟩

theorem assignLabels_length :
    ∀ (ps : List (Option String × String)) (cnt : String → Nat),
      (assignLabels cnt ps).length = ps.length := by
  intro ps
  induction ps with
  | nil => intro cnt; rfl
  | cons p ps ih =>
    intro cnt
    obtain ⟨op, c⟩ := p
    cases op <;> simp [assignLabels, ih]

theorem assignLabels_bare_get :
    ∀ (cs : List String) (cnt : String → Nat) (i : Nat) (hi : i < cs.length),
      (assignLabels cnt (cs.map fun c => ((none : Option String), c))).get? i =
        some (renderLabel (cs.get ⟨i, hi⟩)
          (cnt (cs.get ⟨i, hi⟩) + (cs.take i).count (cs.get ⟨i, hi⟩))) := by
  intro cs
  induction cs with
  | nil =>
    intro cnt i hi
    exact absurd hi (Nat.not_lt_zero i)
  | cons c cs ih =>
    intro cnt i hi
    cases i with
    | zero =>
      simp [assignLabels]
    | succ i =>
      have hi2 : i < cs.length := Nat.lt_of_succ_lt_succ hi
      simp only [List.map_cons, assignLabels, List.get?_cons_succ]
      rw [ih (fun x => if x = c then cnt c + 1 else cnt x) i hi2]
      rw [List.get_cons_succ, List.take_succ_cons, List.count_cons]
      by_cases hc : cs.get ⟨i, hi2⟩ = c
      · rw [if_pos hc]
        have hbeq : (c == cs.get ⟨i, hi2⟩) = true := by
          rw [hc]
          exact beq_self_eq_true c
        rw [hbeq]
        have harith : cnt c + 1 + (cs.take i).count (cs.get ⟨i, hi2⟩) =
            cnt (cs.get ⟨i, hi2⟩) + ((cs.take i).count (cs.get ⟨i, hi2⟩) + 1) := by
          rw [hc]
          omega
        rw [harith]
        simp
      · rw [if_neg hc]
        have hbeq : (c == cs.get ⟨i, hi2⟩) = false := by
          rw [beq_eq_false_iff_ne]
          exact fun he => hc he.symm
        rw [hbeq]
        simp

theorem allCols_bare (es : List PEntity) (hb : ∀ e ∈ es, e.pfxOpt = none) :
    allCols es = (bareCols es).map fun c => ((none : Option String), c) := by
  induction es with
  | nil => rfl
  | cons e es ih =>
    simp only [allCols, bareCols, List.flatMap_cons, List.map_append]
    rw [hb e (List.mem_cons_self _ _)]
    congr 1
    exact ih fun e2 he2 => hb e2 (List.mem_cons_of_mem _ he2)

theorem renderLabel_distinct {ci cj : String} {ki kj : Nat}
    (hci : '_' ∉ ci.data) (hcj : '_' ∉ cj.data)
    (hne : ¬(ci = cj ∧ ki = kj)) :
    renderLabel ci ki ≠ renderLabel cj kj := by
  intro h
  unfold renderLabel at h
  by_cases hk1 : ki = 0 <;> by_cases hk2 : kj = 0
  · rw [if_pos hk1, if_pos hk2] at h
    exact hne ⟨h, by omega⟩
  · rw [if_pos hk1, if_neg hk2] at h
    have hm : '_' ∈ ci.data := by
      rw [h, String.data_append, String.data_append]
      exact List.mem_append.2
        (Or.inl (List.mem_append.2 (Or.inr (List.mem_singleton.2 rfl))))
    exact hci hm
  · rw [if_neg hk1, if_pos hk2] at h
    have hm : '_' ∈ cj.data := by
      rw [← h, String.data_append, String.data_append]
      exact List.mem_append.2
        (Or.inl (List.mem_append.2 (Or.inr (List.mem_singleton.2 rfl))))
    exact hcj hm
  · rw [if_neg hk1, if_neg hk2] at h
    obtain ⟨hc, hr⟩ := string_underscore_append_inj hci hcj h
    exact hne ⟨hc, natRepr_inj hr⟩

theorem take_count_lt {l : List String} {i j : Nat} (hij : i < j)
    (hi : i < l.length) (hj : j < l.length)
    (heq : l.get ⟨i, hi⟩ = l.get ⟨j, hj⟩) :
    (l.take i).count (l.get ⟨i, hi⟩) < (l.take j).count (l.get ⟨j, hj⟩) := by
  rw [heq]
  have hsplit : l.take j = l.take (i + 1) ++ (l.drop (i + 1)).take (j - (i + 1)) := by
    rw [← List.take_add]
    congr 1
    omega
  have htake : l.take (i + 1) = l.take i ++ [l[i]] := by
    rw [List.take_succ, List.getElem?_eq_getElem hi]
    rfl
  have hgx : l[i] = l.get ⟨j, hj⟩ := by
    rw [← List.get_eq_getElem l ⟨i, hi⟩]
    exact heq
  rw [hsplit, List.count_append, htake, List.count_append]
  have hone : List.count (l.get ⟨j, hj⟩) [l[i]] = 1 := by
    rw [List.count_singleton, hgx]
    simp
  omega

/-- Claim C8: for every projection of prefixless entities whose bare column
names contain no underscore, the k-th occurrence of a bare name c is
labelled c itself for the first occurrence and c with numeric suffix _k for
the later ones, and the resulting labels are pairwise distinct. -/
theorem c8_bare_label_disambiguation (es : List PEntity)
    (hb : ∀ e ∈ es, e.pfxOpt = none)
    (hu : ∀ e ∈ es, ∀ c ∈ e.cols, '_' ∉ c.data) :
    (∀ i (hi : i < (bareCols es).length),
      (project es).get? i =
        some (renderLabel ((bareCols es).get ⟨i, hi⟩)
          (((bareCols es).take i).count ((bareCols es).get ⟨i, hi⟩)))) ∧
    (project es).Nodup := by
  have hall : project es =
      assignLabels (fun _ => 0)
        ((bareCols es).map fun c => ((none : Option String), c)) := by
    unfold project
    rw [allCols_bare es hb]
  have hchar : ∀ i (hi : i < (bareCols es).length),
      (project es).get? i =
        some (renderLabel ((bareCols es).get ⟨i, hi⟩)
          (((bareCols es).take i).count ((bareCols es).get ⟨i, hi⟩))) := by
    intro i hi
    rw [hall, assignLabels_bare_get (bareCols es) (fun _ => 0) i hi]
    rw [Nat.zero_add]
  refine ⟨hchar, ?_⟩
  have hlen : (project es).length = (bareCols es).length := by
    rw [hall, assignLabels_length, List.length_map]
  have humem : ∀ c ∈ bareCols es, '_' ∉ c.data := by
    intro c hc
    obtain ⟨e, he, hce⟩ := List.mem_flatMap.1 hc
    exact hu e he c hce
  have key : ∀ i j (hi : i < (bareCols es).length)
      (hj : j < (bareCols es).length), i < j →
      renderLabel ((bareCols es).get ⟨i, hi⟩)
          (((bareCols es).take i).count ((bareCols es).get ⟨i, hi⟩)) =
        renderLabel ((bareCols es).get ⟨j, hj⟩)
          (((bareCols es).take j).count ((bareCols es).get ⟨j, hj⟩)) →
      False := by
    intro i j hi hj hij hab
    refine renderLabel_distinct (humem _ (List.get_mem _ _ _))
      (humem _ (List.get_mem _ _ _)) ?_ hab
    rintro ⟨hceq, hkeq⟩
    have hcl := take_count_lt hij hi hj hceq
    omega
  rw [List.nodup_iff_injective_get]
  intro a b hab
  obtain ⟨i, hi'⟩ := a
  obtain ⟨j, hj'⟩ := b
  apply Fin.ext
  simp only
  by_contra hne
  have hi : i < (bareCols es).length := by
    rw [← hlen]
    exact hi'
  have hj : j < (bareCols es).length := by
    rw [← hlen]
    exact hj'
  have hgi := hchar i hi
  have hgj := hchar j hj
  rw [List.get?_eq_get hi'] at hgi
  rw [List.get?_eq_get hj'] at hgj
  injection hgi with hgi
  injection hgj with hgj
  rw [hgi, hgj] at hab
  rcases Nat.lt_trichotomy i j with hlt | heqij | hgt
  · exact key i j hi hj hlt hab
  · exact hne heqij
  · exact key j i hj hi hgt hab.symm

theorem c8_bare_label_disambiguation_witness :
    (project wEnts).get? 2 = some "id_1" ∧ (project wEnts).Nodup := by
  have h := c8_bare_label_disambiguation wEnts (by decide) (by decide)
  refine ⟨?_, h.2⟩
  have h2 := h.1 2 (by decide)
  rw [h2]
  decide
